import Mathlib

/-!
Shallow embedding of `rasa/nlu/data_router.py`: the admission-controlled
job router (`DataRouter`), its project lifecycle state machine, the
future-to-Deferred bridge (`deferred_from_future`) and the emulator
factory (`DataRouter._create_emulator`).

Conventions:
* Python integers become `Int` (counters may in principle be decremented,
  so we do not bake non-negativity into the type).
* The project store (a Python dict from project name to `Project`) becomes
  an association list `List (String × Project)` with helper lookup/update
  functions mirroring `d[k]`, `d[k] = v` and `k in d`.
* A Python method that can `raise` returns the error together with the
  state it had mutated so far, mirroring statement order: a `raise`
  before any assignment returns the input state unchanged.
* The worker pool is modelled by the multiset of pending jobs: submitting
  appends a job descriptor, a completion removes exactly one pending job
  and runs the corresponding callback or errback.
-/

namespace DataRouterModel

/-- Project status constants imported from `rasa.nlu.project`
(`STATUS_TRAINING`, `STATUS_READY`, `STATUS_FAILED`). -/
inductive Status where
  | training
  | ready
  | failed
deriving DecidableEq, Repr

/-- The fields of `rasa.nlu.project.Project` that `data_router.py` reads or
writes: `status`, `current_worker_processes` and `error_message`.
The class itself lives outside `data_router.py`; its loaded-models
bookkeeping (`update`, `unload`, parsing) is opaque to the router state we
track here. -/
structure Project where
  status : Status
  current_worker_processes : Int
  error_message : Option String
deriving DecidableEq, Repr

/-- Modelled from the spec: a freshly constructed `Project` record
(`Project.__init__` is outside `src/`): no job is in flight yet
(`current_worker_processes = 0`), `error_message` is unset (it is "set only
on transition to FAILED"), and the project is usable, i.e. not in the
TRAINING or FAILED lifecycle states. -/
def Project.fresh : Project :=
  { status := Status.ready
    current_worker_processes := 0
    error_message := none }

/-- The errors `data_router.py` raises from the operations modelled here:
`InvalidProjectError`, `UnsupportedModelError` (imported from
`rasa.nlu.model`), `MaxWorkerProcessError` (defined in the file) and
`ValueError` (from `_create_emulator`). -/
inductive RouterError where
  | invalidProject (msg : String)
  | unsupportedModel (msg : String)
  | maxWorkerProcess
  | valueError (msg : String)
deriving DecidableEq, Repr

/-! ### The emulator factory (`DataRouter._create_emulator`) -/

/-- The emulators `_create_emulator` can return: `NoEmulator`,
`WitEmulator`, `LUISEmulator`, `DialogflowEmulator`. Their translation
behaviour is out of scope; only their identity matters here. -/
inductive Emulator where
  | noEmulator
  | wit
  | luis
  | dialogflow
deriving DecidableEq, Repr

/-- Python's `str.lower()` applied character-wise (the mode names compared
against are ASCII, where `Char.toLower` agrees with Python's `lower`). -/
def pyLower (s : String) : String :=
  String.mk (s.data.map Char.toLower)

/-- `DataRouter._create_emulator(mode)`: `None` selects `NoEmulator`;
otherwise `mode.lower()` is compared against `"wit"`, `"luis"`,
`"dialogflow"`; any other string raises
`ValueError("unknown mode : {0}".format(mode))`. -/
def create_emulator (mode : Option String) : Except RouterError Emulator :=
  match mode with
  | none => Except.ok Emulator.noEmulator
  | some m =>
    if pyLower m = "wit" then Except.ok Emulator.wit
    else if pyLower m = "luis" then Except.ok Emulator.luis
    else if pyLower m = "dialogflow" then Except.ok Emulator.dialogflow
    else Except.error (RouterError.valueError ("unknown mode : " ++ m))

/-! ### The future-to-Deferred bridge (`deferred_from_future`) -/

/-- The outcome a `concurrent.futures.Future` carries once done:
`future.exception()` is either an error or `None`, and in the latter case
`future.result()` is the job's value. -/
inductive FutureOutcome (ε α : Type) where
  | exn (e : ε)
  | result (a : α)
deriving DecidableEq, Repr

/-- One invocation of a Deferred endpoint: `d.errback(e)` or
`d.callback(v)`. -/
inductive Invocation (ε α : Type) where
  | errback (e : ε)
  | callback (a : α)
deriving DecidableEq, Repr

/-- What the done-callback of `deferred_from_future` does with a finished
future: the invocations it hands to `reactor.callFromThread` (queued for
the reactor thread) and the invocations it performs inline on the current
thread. Exactly one of the two lists is populated, selected by the
`DEFERRED_RUN_IN_REACTOR_THREAD` flag. -/
structure Delivery (ε α : Type) where
  scheduled : List (Invocation ε α)
  inline : List (Invocation ε α)
deriving DecidableEq, Repr

/-- The body of the `callback(future)` closure in `deferred_from_future`:
`e = future.exception(); if e: errback(e) else: callback(future.result())`,
each routed through `reactor.callFromThread` when
`DEFERRED_RUN_IN_REACTOR_THREAD` (here the argument `runInReactorThread`)
is set, and invoked directly otherwise. -/
def deferred_from_future (runInReactorThread : Bool)
    (future : FutureOutcome ε α) : Delivery ε α :=
  match future with
  | FutureOutcome.exn e =>
    if runInReactorThread then
      { scheduled := [Invocation.errback e], inline := [] }
    else
      { scheduled := [], inline := [Invocation.errback e] }
  | FutureOutcome.result a =>
    if runInReactorThread then
      { scheduled := [Invocation.callback a], inline := [] }
    else
      { scheduled := [], inline := [Invocation.callback a] }

/-- The observable effect of a delivery once the reactor has drained its
queue: inline invocations already happened, scheduled ones follow. -/
def Delivery.observed (d : Delivery ε α) : List (Invocation ε α) :=
  d.inline ++ d.scheduled

/-- The outcome the underlying job actually had, as an invocation. -/
def FutureOutcome.asInvocation : FutureOutcome ε α → Invocation ε α
  | FutureOutcome.exn e => Invocation.errback e
  | FutureOutcome.result a => Invocation.callback a

/-! ### The project store

`self.project_store` is a Python dict from project name to `Project`; we
embed it as an association list with the dict operations the router uses. -/

/-- The project store: `self.project_store`. -/
abbrev Store := List (String × Project)

/-- `self.project_store[name]`, as an optional lookup (`none` when `name
not in self.project_store`). -/
def Store.get : Store → String → Option Project
  | [], _ => none
  | (n, p) :: rest, name => if n = name then some p else Store.get rest name

/-- `self.project_store[name] = p`: overwrite the entry if the key is
present, append a new entry otherwise. -/
def Store.set : Store → String → Project → Store
  | [], name, p => [(name, p)]
  | (n, q) :: rest, name, p =>
    if n = name then (n, p) :: rest else (n, q) :: Store.set rest name p

/-- Apply `f` to the project stored under `name` (the Python pattern
`self.project_store[name].field = ...`); no-op when absent (Python would
raise `KeyError`, which never happens on the router's code paths: every
callback closes over a project it created or found at submission time). -/
def Store.modify (s : Store) (name : String) (f : Project → Project) : Store :=
  match Store.get s name with
  | some p => Store.set s name (f p)
  | none => s

/-- The keys of the store. -/
def Store.keys (s : Store) : List String := s.map Prod.fst

/-- Sum of the per-project `current_worker_processes` counters. -/
def Store.sumWorkers (s : Store) : Int :=
  (s.map (fun e => e.2.current_worker_processes)).sum

/-! ### Router state -/

/-- The `DataRouter` fields the modelled operations touch:
`_worker_processes` (clamped to at least 1 in `__init__` via
`max(max_worker_processes, 1)`), `_current_worker_processes` (initially 0)
and `project_store`. The pool, emulator, loggers and model-server wiring
carry no state the claims mention. -/
structure DataRouter where
  worker_processes : Nat
  current_worker_processes : Int
  project_store : Store
deriving DecidableEq, Repr

/-- `DataRouter.__init__` restricted to the modelled fields:
`self._worker_processes = max(max_worker_processes, 1)`,
`self._current_worker_processes = 0`, and `self.project_store` populated
by `_create_project_store` with one fresh `Project` record per discovered
project name (modelled from the spec, since `Project.__init__` is outside
`src/`). -/
def DataRouter.init (max_worker_processes : Nat) (projects : List String) :
    DataRouter :=
  { worker_processes := max max_worker_processes 1
    current_worker_processes := 0
    project_store := projects.map (fun n => (n, Project.fresh)) }

/-- A job descriptor handed to `self.pool.submit`: either
`do_train_in_worker` for a project (carrying the opaque training inputs)
or `run_evaluation` for a project's model. Only the owning project name
matters to the router's bookkeeping. -/
inductive Job where
  | train (project : String)
  | eval (project : String)
deriving DecidableEq, Repr

/-- The project a job belongs to (the `project` captured by its
callbacks). -/
def Job.project : Job → String
  | Job.train p => p
  | Job.eval p => p

/-! ### Training submission and its completion handlers -/

/-- Modelled from twisted: `str(failure)` for a
`twisted.python.failure.Failure` is
`"[Failure instance: %s]" % self.getBriefTraceback()` — in particular it
is never the empty string. `briefTraceback` stands for the opaque
traceback text. -/
def failureStr (briefTraceback : String) : String :=
  "[Failure instance: " ++ briefTraceback ++ "]"

/-- The statement pair `self._current_worker_processes += 1;
self.project_store[project].current_worker_processes += 1`, appearing
verbatim in both `start_train_process` and `evaluate`. -/
def incrWorkers (self : DataRouter) (project : String) : DataRouter :=
  { self with
      current_worker_processes := self.current_worker_processes + 1
      project_store :=
        self.project_store.modify project (fun p =>
          { p with current_worker_processes := p.current_worker_processes + 1 }) }

/-- The statement pair `self._current_worker_processes -= 1;
self.project_store[project].current_worker_processes -= 1`, appearing
verbatim in all four completion closures. -/
def decrWorkers (self : DataRouter) (project : String) : DataRouter :=
  { self with
      current_worker_processes := self.current_worker_processes - 1
      project_store :=
        self.project_store.modify project (fun p =>
          { p with current_worker_processes := p.current_worker_processes - 1 }) }

/-- The `training_callback(model_path)` closure of `start_train_process`:
update the project's model list from the returned path (opaque, outside
the tracked fields), decrement the global and per-project worker
counters, and set the status to READY when the project is still TRAINING
and its in-flight count has reached 0. -/
def training_callback (self : DataRouter) (project : String) : DataRouter :=
  let self := decrWorkers self project
  { self with
      project_store :=
        self.project_store.modify project (fun p =>
          if p.status = Status.training ∧ p.current_worker_processes = 0 then
            { p with status := Status.ready }
          else p) }

/-- The `training_errback(failure)` closure of `start_train_process`:
decrement the global and per-project worker counters, set the status to
FAILED and record `str(failure)` as the error message. -/
def training_errback (self : DataRouter) (project : String)
    (briefTraceback : String) : DataRouter :=
  let self := decrWorkers self project
  { self with
      project_store :=
        self.project_store.modify project (fun p =>
          { p with
              status := Status.failed
              error_message := some (failureStr briefTraceback) }) }

/-- Lines 348-354 of `start_train_process`: set the project's status to
TRAINING, constructing a fresh `Project` record first when the name is not
yet in the store. -/
def setProjectTraining (self : DataRouter) (project : String) : DataRouter :=
  { self with
      project_store :=
        match self.project_store.get project with
        | some p =>
          self.project_store.set project { p with status := Status.training }
        | none =>
          self.project_store.set project
            { Project.fresh with status := Status.training } }

/-- `DataRouter.start_train_process(data_file, project, train_config,
model_name)`, with the statements in source order: raise
`InvalidProjectError` on an empty project name; raise
`MaxWorkerProcessError` when `self._worker_processes <=
self._current_worker_processes`; set the (created-if-absent) project's
status to TRAINING; increment the global and per-project counters; submit
the training job. The returned pair carries the raised error or submitted
job together with the state as mutated up to that point. -/
def start_train_process (self : DataRouter) (project : String) :
    Except RouterError Job × DataRouter :=
  if project = "" then
    (Except.error (RouterError.invalidProject "Missing project name to train"), self)
  else if self.current_worker_processes ≥ (self.worker_processes : Int) then
    (Except.error RouterError.maxWorkerProcess, self)
  else
    (Except.ok (Job.train project),
      incrWorkers (setProjectTraining self project) project)

/-! ### Evaluation submission and its completion handlers -/

/-- The `evaluation_callback(result)` closure of `evaluate`: decrement the
global and per-project worker counters; nothing else. -/
def evaluation_callback (self : DataRouter) (project : String) : DataRouter :=
  decrWorkers self project

/-- The `evaluation_errback(failure)` closure of `evaluate`: identical
state effect to `evaluation_callback`. -/
def evaluation_errback (self : DataRouter) (project : String) : DataRouter :=
  decrWorkers self project

/-- The default project name
(`RasaNLUModelConfig.DEFAULT_PROJECT_NAME`, outside `src/`). -/
def DEFAULT_PROJECT_NAME : String := "default"

/-- `FALLBACK_MODEL_NAME` from `rasa.nlu.project` (outside `src/`): the
sentinel `_dynamic_load_model` returns when the project has no model. -/
def FALLBACK_MODEL_NAME : String := "fallback"

/-- `project = project or RasaNLUModelConfig.DEFAULT_PROJECT_NAME`:
Python `or` treats both `None` and `""` as falsy. -/
def resolveProjectName (project : Option String) : String :=
  match project with
  | some p => if p = "" then DEFAULT_PROJECT_NAME else p
  | none => DEFAULT_PROJECT_NAME

/-- `model = model or self.project_store[project]._dynamic_load_model(model)`:
Python `or` treats both `None` and `""` as falsy; `dynamic_load` stands for
the project's opaque `_dynamic_load_model` (outside `src/`). -/
def resolveModel (model : Option String) (dynamic_load : String → String)
    (projectName : String) : String :=
  match model with
  | some m => if m = "" then dynamic_load projectName else m
  | none => dynamic_load projectName

/-- `DataRouter.evaluate(data, project, model)`, statements in source
order: raise `MaxWorkerProcessError` when `self._worker_processes <=
self._current_worker_processes`; default the project name; raise
`InvalidProjectError` when the (defaulted) project is not in the store;
resolve the model via the project's `_dynamic_load_model` when none was
given and raise `UnsupportedModelError` when it resolves to
`FALLBACK_MODEL_NAME`; increment the global and per-project counters and
submit the evaluation job. -/
def evaluate (self : DataRouter) (project : Option String)
    (model : Option String) (dynamic_load : String → String) :
    Except RouterError Job × DataRouter :=
  if self.current_worker_processes ≥ (self.worker_processes : Int) then
    (Except.error RouterError.maxWorkerProcess, self)
  else
    match self.project_store.get (resolveProjectName project) with
    | none =>
      (Except.error (RouterError.invalidProject
        ("Project " ++ resolveProjectName project ++ " could not be found.")),
       self)
    | some _ =>
      if resolveModel model dynamic_load (resolveProjectName project) =
          FALLBACK_MODEL_NAME then
        (Except.error (RouterError.unsupportedModel
          ("No model in project " ++ resolveProjectName project ++
            " to evaluate.")), self)
      else
        (Except.ok (Job.eval (resolveProjectName project)),
         incrWorkers self (resolveProjectName project))

/-! ### The router as a transition system

A configuration pairs the router state with the multiset (list) of
submitted jobs whose completion has not yet been delivered. A submission
that returns a job appends it; each completion removes exactly one pending
job and runs the corresponding callback or errback. -/

/-- Router state plus in-flight jobs. -/
structure Config where
  router : DataRouter
  pending : List Job
deriving DecidableEq, Repr

/-- One step of the router: a training or evaluation submission (failed
submissions leave the pending list alone and return the router state as
mutated up to the raise, which for every raise in the source is the
untouched input state), or delivery of one pending job's completion,
successful or failed, in any order. -/
inductive Step : Config → Config → Prop where
  | submitTrainOk (r : DataRouter) (pend : List Job) (project : String)
      (j : Job) (r' : DataRouter)
      (h : start_train_process r project = (Except.ok j, r')) :
      Step ⟨r, pend⟩ ⟨r', j :: pend⟩
  | submitTrainErr (r : DataRouter) (pend : List Job) (project : String)
      (e : RouterError) (r' : DataRouter)
      (h : start_train_process r project = (Except.error e, r')) :
      Step ⟨r, pend⟩ ⟨r', pend⟩
  | submitEvalOk (r : DataRouter) (pend : List Job) (project model : Option String)
      (dynamic_load : String → String) (j : Job) (r' : DataRouter)
      (h : evaluate r project model dynamic_load = (Except.ok j, r')) :
      Step ⟨r, pend⟩ ⟨r', j :: pend⟩
  | submitEvalErr (r : DataRouter) (pend : List Job) (project model : Option String)
      (dynamic_load : String → String) (e : RouterError) (r' : DataRouter)
      (h : evaluate r project model dynamic_load = (Except.error e, r')) :
      Step ⟨r, pend⟩ ⟨r', pend⟩
  | completeTrainOk (r : DataRouter) (l₁ l₂ : List Job) (project : String) :
      Step ⟨r, l₁ ++ Job.train project :: l₂⟩
        ⟨training_callback r project, l₁ ++ l₂⟩
  | completeTrainErr (r : DataRouter) (l₁ l₂ : List Job) (project : String)
      (briefTraceback : String) :
      Step ⟨r, l₁ ++ Job.train project :: l₂⟩
        ⟨training_errback r project briefTraceback, l₁ ++ l₂⟩
  | completeEvalOk (r : DataRouter) (l₁ l₂ : List Job) (project : String) :
      Step ⟨r, l₁ ++ Job.eval project :: l₂⟩
        ⟨evaluation_callback r project, l₁ ++ l₂⟩
  | completeEvalErr (r : DataRouter) (l₁ l₂ : List Job) (project : String) :
      Step ⟨r, l₁ ++ Job.eval project :: l₂⟩
        ⟨evaluation_errback r project, l₁ ++ l₂⟩

/-- Configurations reachable from a freshly constructed router (any
capacity, any duplicate-free set of initially discovered projects) by any
interleaving of submissions and completion deliveries. -/
inductive Reachable : Config → Prop where
  | init (max_worker_processes : Nat) (projects : List String)
      (h : projects.Nodup) :
      Reachable ⟨DataRouter.init max_worker_processes projects, []⟩
  | step (c c' : Config) (hc : Reachable c) (hs : Step c c') : Reachable c'

/-! ### Store lemmas -/

theorem Store.get_set_self (s : Store) (n : String) (p : Project) :
    (s.set n p).get n = some p := by
  induction s with
  | nil => simp [Store.set, Store.get]
  | cons e rest ih =>
    obtain ⟨m, q⟩ := e
    by_cases h : m = n
    · subst h; simp [Store.set, Store.get]
    · simp [Store.set, Store.get, h, ih]

theorem Store.get_set_ne (s : Store) (n m : String) (p : Project)
    (h : n ≠ m) : (s.set n p).get m = s.get m := by
  induction s with
  | nil => simp [Store.set, Store.get, h]
  | cons e rest ih =>
    obtain ⟨k, q⟩ := e
    by_cases hk : k = n
    · subst hk; simp [Store.set, Store.get, h]
    · simp [Store.set, Store.get, hk, ih]

theorem Store.get_isSome_iff_mem_keys (s : Store) (n : String) :
    (s.get n).isSome ↔ n ∈ s.keys := by
  induction s with
  | nil => simp [Store.get, Store.keys]
  | cons e rest ih =>
    obtain ⟨k, q⟩ := e
    by_cases hk : k = n
    · subst hk; simp [Store.get, Store.keys]
    · simp [Store.get, Store.keys, hk, ih, Ne.symm hk]

theorem Store.keys_set_of_isSome (s : Store) (n : String) (p : Project)
    (h : (s.get n).isSome) : (s.set n p).keys = s.keys := by
  induction s with
  | nil => simp [Store.get] at h
  | cons e rest ih =>
    obtain ⟨k, q⟩ := e
    by_cases hk : k = n
    · subst hk; simp [Store.set, Store.keys]
    · simp [Store.get, hk] at h
      have := ih h
      simp only [Store.keys] at this
      simp [Store.set, Store.keys, hk, this]

theorem Store.keys_set_of_none (s : Store) (n : String) (p : Project)
    (h : s.get n = none) : (s.set n p).keys = s.keys ++ [n] := by
  induction s with
  | nil => simp [Store.set, Store.keys]
  | cons e rest ih =>
    obtain ⟨k, q⟩ := e
    by_cases hk : k = n
    · subst hk; simp [Store.get] at h
    · simp [Store.get, hk] at h
      have := ih h
      simp only [Store.keys] at this
      simp [Store.set, Store.keys, hk, this]

theorem Store.get_modify_self (s : Store) (n : String) (f : Project → Project)
    (q : Project) (h : s.get n = some q) :
    (s.modify n f).get n = some (f q) := by
  simp [Store.modify, h, Store.get_set_self]

theorem Store.get_modify_ne (s : Store) (n m : String) (f : Project → Project)
    (h : n ≠ m) : (s.modify n f).get m = s.get m := by
  unfold Store.modify
  cases hg : s.get n with
  | none => rfl
  | some q => simp [Store.get_set_ne _ _ _ _ h]

theorem Store.keys_modify (s : Store) (n : String) (f : Project → Project) :
    (s.modify n f).keys = s.keys := by
  unfold Store.modify
  cases hg : s.get n with
  | none => rfl
  | some q =>
    exact Store.keys_set_of_isSome _ _ _ (by simp [hg])

/-! ### Counting pending jobs -/

/-- The number of pending jobs owned by project `n`. -/
def countJobs (pend : List Job) (n : String) : Nat :=
  pend.countP (fun j => decide (j.project = n))

theorem countJobs_nil (n : String) : countJobs [] n = 0 := rfl

theorem countJobs_cons (j : Job) (pend : List Job) (n : String) :
    countJobs (j :: pend) n =
      countJobs pend n + (if j.project = n then 1 else 0) := by
  simp [countJobs, List.countP_cons]

theorem countJobs_append (l₁ l₂ : List Job) (n : String) :
    countJobs (l₁ ++ l₂) n = countJobs l₁ n + countJobs l₂ n := by
  simp [countJobs, List.countP_append]

/-! ### Effect lemmas for the counter helpers and completion closures -/

theorem incrWorkers_get_self (r : DataRouter) (n : String) (q : Project)
    (h : r.project_store.get n = some q) :
    (incrWorkers r n).project_store.get n =
      some { q with current_worker_processes := q.current_worker_processes + 1 } := by
  simp [incrWorkers, Store.get_modify_self _ _ _ _ h]

theorem incrWorkers_get_ne (r : DataRouter) (n m : String) (h : n ≠ m) :
    (incrWorkers r n).project_store.get m = r.project_store.get m := by
  simp [incrWorkers, Store.get_modify_ne _ _ _ _ h]

theorem incrWorkers_keys (r : DataRouter) (n : String) :
    (incrWorkers r n).project_store.keys = r.project_store.keys := by
  simp [incrWorkers, Store.keys_modify]

theorem decrWorkers_get_self (r : DataRouter) (n : String) (q : Project)
    (h : r.project_store.get n = some q) :
    (decrWorkers r n).project_store.get n =
      some { q with current_worker_processes := q.current_worker_processes - 1 } := by
  simp [decrWorkers, Store.get_modify_self _ _ _ _ h]

theorem decrWorkers_get_ne (r : DataRouter) (n m : String) (h : n ≠ m) :
    (decrWorkers r n).project_store.get m = r.project_store.get m := by
  simp [decrWorkers, Store.get_modify_ne _ _ _ _ h]

theorem decrWorkers_keys (r : DataRouter) (n : String) :
    (decrWorkers r n).project_store.keys = r.project_store.keys := by
  simp [decrWorkers, Store.keys_modify]

theorem training_callback_get_self (r : DataRouter) (n : String) (q : Project)
    (h : r.project_store.get n = some q) :
    (training_callback r n).project_store.get n =
      some
        (if q.status = Status.training ∧ q.current_worker_processes - 1 = 0 then
          { q with
              status := Status.ready
              current_worker_processes := q.current_worker_processes - 1 }
        else
          { q with current_worker_processes := q.current_worker_processes - 1 }) := by
  have h1 := decrWorkers_get_self r n q h
  show ((decrWorkers r n).project_store.modify n _).get n = _
  rw [Store.get_modify_self _ _ _ _ h1]

theorem training_callback_get_ne (r : DataRouter) (n m : String) (h : n ≠ m) :
    (training_callback r n).project_store.get m = r.project_store.get m := by
  show ((decrWorkers r n).project_store.modify n _).get m = _
  rw [Store.get_modify_ne _ _ _ _ h, decrWorkers_get_ne _ _ _ h]

theorem training_callback_keys (r : DataRouter) (n : String) :
    (training_callback r n).project_store.keys = r.project_store.keys := by
  show ((decrWorkers r n).project_store.modify n _).keys = _
  rw [Store.keys_modify, decrWorkers_keys]

theorem training_callback_current (r : DataRouter) (n : String) :
    (training_callback r n).current_worker_processes =
      r.current_worker_processes - 1 := rfl

theorem training_callback_max (r : DataRouter) (n : String) :
    (training_callback r n).worker_processes = r.worker_processes := rfl

theorem training_errback_get_self (r : DataRouter) (n : String)
    (briefTraceback : String) (q : Project)
    (h : r.project_store.get n = some q) :
    (training_errback r n briefTraceback).project_store.get n =
      some
        { q with
            current_worker_processes := q.current_worker_processes - 1
            status := Status.failed
            error_message := some (failureStr briefTraceback) } := by
  have h1 := decrWorkers_get_self r n q h
  show ((decrWorkers r n).project_store.modify n _).get n = _
  rw [Store.get_modify_self _ _ _ _ h1]

theorem training_errback_get_ne (r : DataRouter) (n m : String)
    (briefTraceback : String) (h : n ≠ m) :
    (training_errback r n briefTraceback).project_store.get m =
      r.project_store.get m := by
  show ((decrWorkers r n).project_store.modify n _).get m = _
  rw [Store.get_modify_ne _ _ _ _ h, decrWorkers_get_ne _ _ _ h]

theorem training_errback_keys (r : DataRouter) (n : String)
    (briefTraceback : String) :
    (training_errback r n briefTraceback).project_store.keys =
      r.project_store.keys := by
  show ((decrWorkers r n).project_store.modify n _).keys = _
  rw [Store.keys_modify, decrWorkers_keys]

theorem training_errback_current (r : DataRouter) (n : String)
    (briefTraceback : String) :
    (training_errback r n briefTraceback).current_worker_processes =
      r.current_worker_processes - 1 := rfl

theorem training_errback_max (r : DataRouter) (n : String)
    (briefTraceback : String) :
    (training_errback r n briefTraceback).worker_processes =
      r.worker_processes := rfl

/-! ### Inversion lemmas for the submission operations -/

theorem start_train_process_ok_inv (r : DataRouter) (project : String)
    (j : Job) (r' : DataRouter)
    (h : start_train_process r project = (Except.ok j, r')) :
    project ≠ "" ∧
    r.current_worker_processes < (r.worker_processes : Int) ∧
    j = Job.train project ∧
    r' = incrWorkers (setProjectTraining r project) project := by
  unfold start_train_process at h
  by_cases h1 : project = ""
  · simp [h1] at h
  · rw [if_neg h1] at h
    by_cases h2 : r.current_worker_processes ≥ (r.worker_processes : Int)
    · rw [if_pos h2] at h
      simp at h
    · rw [if_neg h2] at h
      injection h with hj hr
      injection hj with hj
      exact ⟨h1, lt_of_not_ge h2, hj.symm, hr.symm⟩

theorem start_train_process_err_inv (r : DataRouter) (project : String)
    (e : RouterError) (r' : DataRouter)
    (h : start_train_process r project = (Except.error e, r')) :
    r' = r := by
  unfold start_train_process at h
  by_cases h1 : project = ""
  · rw [if_pos h1] at h
    injection h with hj hr
    exact hr.symm
  · rw [if_neg h1] at h
    by_cases h2 : r.current_worker_processes ≥ (r.worker_processes : Int)
    · rw [if_pos h2] at h
      injection h with hj hr
      exact hr.symm
    · rw [if_neg h2] at h
      simp at h

theorem evaluate_ok_inv (r : DataRouter) (project model : Option String)
    (dynamic_load : String → String) (j : Job) (r' : DataRouter)
    (h : evaluate r project model dynamic_load = (Except.ok j, r')) :
    r.current_worker_processes < (r.worker_processes : Int) ∧
    ∃ projectName q, r.project_store.get projectName = some q ∧
      j = Job.eval projectName ∧ r' = incrWorkers r projectName := by
  unfold evaluate at h
  by_cases h1 : r.current_worker_processes ≥ (r.worker_processes : Int)
  · rw [if_pos h1] at h
    simp at h
  · rw [if_neg h1] at h
    refine ⟨lt_of_not_ge h1, ?_⟩
    cases hg : r.project_store.get (resolveProjectName project) with
    | none => rw [hg] at h; simp at h
    | some q =>
      rw [hg] at h
      by_cases h2 : resolveModel model dynamic_load (resolveProjectName project) =
          FALLBACK_MODEL_NAME
      · rw [if_pos h2] at h
        simp at h
      · rw [if_neg h2] at h
        injection h with hj hr
        injection hj with hj
        exact ⟨resolveProjectName project, q, hg, hj.symm, hr.symm⟩

theorem evaluate_err_inv (r : DataRouter) (project model : Option String)
    (dynamic_load : String → String) (e : RouterError) (r' : DataRouter)
    (h : evaluate r project model dynamic_load = (Except.error e, r')) :
    r' = r := by
  unfold evaluate at h
  by_cases h1 : r.current_worker_processes ≥ (r.worker_processes : Int)
  · rw [if_pos h1] at h
    injection h with hj hr
    exact hr.symm
  · rw [if_neg h1] at h
    cases hg : r.project_store.get (resolveProjectName project) with
    | none =>
      rw [hg] at h
      injection h with hj hr
      exact hr.symm
    | some q =>
      rw [hg] at h
      by_cases h2 : resolveModel model dynamic_load (resolveProjectName project) =
          FALLBACK_MODEL_NAME
      · rw [if_pos h2] at h
        injection h with hj hr
        exact hr.symm
      · rw [if_neg h2] at h
        simp at h

/-! ### Summing per-project counters -/

theorem sum_map_add_int {β : Type} (l : List β) (f g : β → Int) :
    (l.map fun e => f e + g e).sum = (l.map f).sum + (l.map g).sum := by
  induction l with
  | nil => simp
  | cons a l ih => simp [ih]; ring

theorem sum_indicator_zero (s : Store) (n : String) (h : n ∉ s.keys) :
    (s.map fun e => if e.1 = n then (1 : Int) else 0).sum = 0 := by
  induction s with
  | nil => simp
  | cons e rest ih =>
    obtain ⟨k, q⟩ := e
    simp only [Store.keys, List.map_cons, List.mem_cons] at h
    push_neg at h
    simp only [List.map_cons, List.sum_cons, if_neg (Ne.symm h.1)]
    have : n ∉ Store.keys rest := by simpa [Store.keys] using h.2
    simp [ih this]

theorem sum_indicator_one (s : Store) (n : String)
    (hs : (s.get n).isSome) (hnd : s.keys.Nodup) :
    (s.map fun e => if e.1 = n then (1 : Int) else 0).sum = 1 := by
  induction s with
  | nil => simp [Store.get] at hs
  | cons e rest ih =>
    obtain ⟨k, q⟩ := e
    simp only [Store.keys, List.map_cons, List.nodup_cons] at hnd
    by_cases hk : k = n
    · subst hk
      have hzero : k ∉ Store.keys rest := by
        simpa [Store.keys] using hnd.1
      simp [sum_indicator_zero rest k hzero]
    · simp only [Store.get, if_neg hk] at hs
      have : Store.keys rest |>.Nodup := hnd.2
      simp [hk, ih hs this]

theorem countJobs_eq_zero_of_get_none (pend : List Job) (s : Store)
    (n : String) (hnone : s.get n = none)
    (hmem : ∀ j ∈ pend, (s.get j.project).isSome) :
    countJobs pend n = 0 := by
  rw [countJobs, List.countP_eq_zero]
  intro j hj
  simp only [decide_eq_true_eq]
  intro hproj
  have := hmem j hj
  rw [hproj, hnone] at this
  simp at this

theorem sum_count (s : Store) (pend : List Job)
    (hnd : s.keys.Nodup)
    (hmem : ∀ j ∈ pend, (s.get j.project).isSome) :
    (s.map fun e => (countJobs pend e.1 : Int)).sum = (pend.length : Int) := by
  induction pend with
  | nil => simp [countJobs_nil]
  | cons j pend ih =>
    have hmem' : ∀ j' ∈ pend, (s.get j'.project).isSome := fun j' hj' =>
      hmem j' (List.mem_cons_of_mem _ hj')
    have hstep :
        (s.map fun e => (countJobs (j :: pend) e.1 : Int)) =
          s.map fun e =>
            (countJobs pend e.1 : Int) + (if e.1 = j.project then 1 else 0) := by
      apply List.map_congr_left
      intro e _
      rw [countJobs_cons]
      push_cast
      by_cases he : j.project = e.1
      · simp [he]
      · simp [he, Ne.symm he]
    rw [hstep, sum_map_add_int, ih hmem',
      sum_indicator_one s j.project (hmem j (List.mem_cons_self _ _)) hnd]
    simp

/-- With duplicate-free keys, every entry of the store is what `get`
returns at its key. -/
theorem Store.get_of_mem (s : Store) (hnd : s.keys.Nodup)
    (e : String × Project) (he : e ∈ s) : s.get e.1 = some e.2 := by
  induction s with
  | nil => simp at he
  | cons a rest ih =>
    simp only [Store.keys, List.map_cons, List.nodup_cons] at hnd
    rcases List.mem_cons.mp he with h | h
    · subst h
      simp [Store.get]
    · obtain ⟨k, q⟩ := a
      by_cases hk : k = e.1
      · exfalso
        apply hnd.1
        rw [hk]
        exact List.mem_map.mpr ⟨e, h, rfl⟩
      · simp only [Store.get, if_neg hk]
        exact ih hnd.2 h

/-- The store-wide sum of per-project counters equals the number of
pending jobs, provided each entry's counter counts its own pending jobs
and every pending job's project is registered. -/
theorem sumWorkers_eq_length (s : Store) (pend : List Job)
    (hnd : s.keys.Nodup)
    (hcount : ∀ n p, s.get n = some p →
      p.current_worker_processes = (countJobs pend n : Int))
    (hmem : ∀ j ∈ pend, (s.get j.project).isSome) :
    s.sumWorkers = (pend.length : Int) := by
  rw [Store.sumWorkers]
  have : (s.map fun e => e.2.current_worker_processes) =
      s.map fun e => (countJobs pend e.1 : Int) := by
    apply List.map_congr_left
    intro e he
    exact hcount e.1 e.2 (Store.get_of_mem s hnd e he)
  rw [this, sum_count s pend hnd hmem]

/-! ### The inductive invariant -/

/-- The inductive invariant of the router transition system: store keys
are duplicate-free, each registered project's counter counts exactly its
own pending jobs, every pending job's project is registered, the global
counter counts all pending jobs, the pool capacity bounds the pending
jobs, and a FAILED project carries an error message. -/
structure Inv (c : Config) : Prop where
  nodupKeys : c.router.project_store.keys.Nodup
  projCount : ∀ n p, c.router.project_store.get n = some p →
      p.current_worker_processes = (countJobs c.pending n : Int)
  pendMem : ∀ j ∈ c.pending, (c.router.project_store.get j.project).isSome
  globalCount : c.router.current_worker_processes = (c.pending.length : Int)
  cap : c.pending.length ≤ c.router.worker_processes
  failedMsg : ∀ n p, c.router.project_store.get n = some p →
      p.status = Status.failed → p.error_message ≠ none

theorem init_store_get (projects : List String) (n : String) :
    Store.get (projects.map fun k => (k, Project.fresh)) n =
      if n ∈ projects then some Project.fresh else none := by
  induction projects with
  | nil => simp [Store.get]
  | cons a rest ih =>
    by_cases ha : a = n
    · subst ha
      simp [Store.get]
    · simp [Store.get, ha, Ne.symm ha, ih]

theorem init_store_keys (projects : List String) :
    Store.keys (projects.map fun k => (k, Project.fresh)) = projects := by
  induction projects with
  | nil => rfl
  | cons a rest ih => simp [Store.keys] at ih ⊢; exact ih

theorem inv_init (m : Nat) (projects : List String) (h : projects.Nodup) :
    Inv ⟨DataRouter.init m projects, []⟩ := by
  refine ⟨?_, ?_, ?_, ?_, ?_, ?_⟩
  · show Store.keys (projects.map fun k => (k, Project.fresh)) |>.Nodup
    rw [init_store_keys]
    exact h
  · intro n p hget
    rw [show (Config.mk (DataRouter.init m projects) []).router.project_store
        = projects.map fun k => (k, Project.fresh) from rfl,
      init_store_get] at hget
    split at hget
    · cases hget
      simp [Project.fresh, countJobs_nil]
    · cases hget
  · intro j hj
    simp at hj
  · simp [DataRouter.init]
  · simp [DataRouter.init]
  · intro n p hget hstatus
    rw [show (Config.mk (DataRouter.init m projects) []).router.project_store
        = projects.map fun k => (k, Project.fresh) from rfl,
      init_store_get] at hget
    split at hget
    · cases hget
      simp [Project.fresh] at hstatus
    · cases hget

/-! ### Effect lemmas for `setProjectTraining` -/

theorem setProjectTraining_get_self (r : DataRouter) (project : String) :
    (setProjectTraining r project).project_store.get project =
      some { (r.project_store.get project).getD Project.fresh with
              status := Status.training } := by
  unfold setProjectTraining
  cases hg : r.project_store.get project <;>
    simp [hg, Store.get_set_self]

theorem setProjectTraining_get_ne (r : DataRouter) (project m : String)
    (h : project ≠ m) :
    (setProjectTraining r project).project_store.get m =
      r.project_store.get m := by
  unfold setProjectTraining
  cases hg : r.project_store.get project <;>
    simp [hg, Store.get_set_ne _ _ _ _ h]

theorem setProjectTraining_keys_of_isSome (r : DataRouter) (project : String)
    (h : (r.project_store.get project).isSome) :
    (setProjectTraining r project).project_store.keys =
      r.project_store.keys := by
  unfold setProjectTraining
  cases hg : r.project_store.get project with
  | none => rw [hg] at h; simp at h
  | some q =>
    simp only [hg]
    exact Store.keys_set_of_isSome _ _ _ (by simp [hg])

theorem setProjectTraining_keys_of_none (r : DataRouter) (project : String)
    (h : r.project_store.get project = none) :
    (setProjectTraining r project).project_store.keys =
      r.project_store.keys ++ [project] := by
  unfold setProjectTraining
  rw [h]
  exact Store.keys_set_of_none _ _ _ h

theorem setProjectTraining_current (r : DataRouter) (project : String) :
    (setProjectTraining r project).current_worker_processes =
      r.current_worker_processes := rfl

theorem setProjectTraining_max (r : DataRouter) (project : String) :
    (setProjectTraining r project).worker_processes = r.worker_processes := rfl

/-! ### Preservation of the invariant -/

theorem inv_submitTrainOk (r : DataRouter) (pend : List Job)
    (project : String) (j : Job) (r' : DataRouter)
    (h : start_train_process r project = (Except.ok j, r'))
    (hInv : Inv ⟨r, pend⟩) : Inv ⟨r', j :: pend⟩ := by
  obtain ⟨-, hlt, hj, hr'⟩ := start_train_process_ok_inv r project j r' h
  subst hj hr'
  have hset := setProjectTraining_get_self r project
  have hget' :
      (incrWorkers (setProjectTraining r project) project).project_store.get
        project =
      some { (r.project_store.get project).getD Project.fresh with
              status := Status.training
              current_worker_processes :=
                ((r.project_store.get project).getD
                  Project.fresh).current_worker_processes + 1 } :=
    incrWorkers_get_self _ _ _ hset
  have hcount0 :
      ((r.project_store.get project).getD
        Project.fresh).current_worker_processes =
        (countJobs pend project : Int) := by
    cases hg : r.project_store.get project with
    | some q =>
      simpa [hg] using hInv.projCount project q hg
    | none =>
      have := countJobs_eq_zero_of_get_none pend r.project_store project hg
        (fun j' hj' => hInv.pendMem j' hj')
      simp [hg, Project.fresh, this]
  refine ⟨?_, ?_, ?_, ?_, ?_, ?_⟩
  · show (incrWorkers (setProjectTraining r project) project).project_store.keys.Nodup
    rw [incrWorkers_keys]
    cases hg : r.project_store.get project with
    | some q =>
      rw [setProjectTraining_keys_of_isSome _ _ (by simp [hg])]
      exact hInv.nodupKeys
    | none =>
      rw [setProjectTraining_keys_of_none _ _ hg]
      have hnotmem : project ∉ r.project_store.keys := by
        intro hmem
        have := (Store.get_isSome_iff_mem_keys _ _).mpr hmem
        rw [hg] at this
        simp at this
      simp [List.nodup_append, hInv.nodupKeys, hnotmem]
  · intro n p hget
    by_cases hn : n = project
    · subst hn
      rw [hget'] at hget
      cases hget
      rw [countJobs_cons]
      simp only [Job.project, if_pos rfl]
      push_cast
      simp [hcount0]
    · rw [incrWorkers_get_ne _ _ _ (Ne.symm hn),
        setProjectTraining_get_ne _ _ _ (Ne.symm hn)] at hget
      rw [countJobs_cons]
      simp only [Job.project, if_neg (Ne.symm hn)]
      simpa using hInv.projCount n p hget
  · intro j' hj'
    rcases List.mem_cons.mp hj' with hhd | htl
    · subst hhd
      simp [Job.project, hget']
    · by_cases hn : j'.project = project
      · rw [hn, hget']
        simp
      · rw [incrWorkers_get_ne _ _ _ (Ne.symm hn),
          setProjectTraining_get_ne _ _ _ (Ne.symm hn)]
        exact hInv.pendMem j' htl
  · show (setProjectTraining r project).current_worker_processes + 1 = _
    rw [setProjectTraining_current]
    rw [hInv.globalCount]
    push_cast
    simp [add_comm]
  · show (Job.train project :: pend).length ≤
      (incrWorkers (setProjectTraining r project) project).worker_processes
    have hmax : (incrWorkers (setProjectTraining r project)
        project).worker_processes = r.worker_processes := rfl
    rw [hmax]
    have hlen : r.current_worker_processes = (pend.length : Int) :=
      hInv.globalCount
    rw [hlen] at hlt
    have : pend.length < r.worker_processes := by exact_mod_cast hlt
    simpa using this
  · intro n p hget hstatus
    by_cases hn : n = project
    · subst hn
      rw [hget'] at hget
      cases hget
      simp at hstatus
    · rw [incrWorkers_get_ne _ _ _ (Ne.symm hn),
        setProjectTraining_get_ne _ _ _ (Ne.symm hn)] at hget
      exact hInv.failedMsg n p hget hstatus

theorem inv_submitEvalOk (r : DataRouter) (pend : List Job)
    (project model : Option String) (dynamic_load : String → String)
    (j : Job) (r' : DataRouter)
    (h : evaluate r project model dynamic_load = (Except.ok j, r'))
    (hInv : Inv ⟨r, pend⟩) : Inv ⟨r', j :: pend⟩ := by
  obtain ⟨hlt, projectName, q, hg, hj, hr'⟩ :=
    evaluate_ok_inv r project model dynamic_load j r' h
  subst hj hr'
  have hget' := incrWorkers_get_self r projectName q hg
  refine ⟨?_, ?_, ?_, ?_, ?_, ?_⟩
  · show (incrWorkers r projectName).project_store.keys.Nodup
    rw [incrWorkers_keys]
    exact hInv.nodupKeys
  · intro n p hget
    by_cases hn : n = projectName
    · subst hn
      rw [hget'] at hget
      cases hget
      rw [countJobs_cons]
      simp only [Job.project, if_pos rfl]
      push_cast
      simp [hInv.projCount n q hg]
    · rw [incrWorkers_get_ne _ _ _ (Ne.symm hn)] at hget
      rw [countJobs_cons]
      simp only [Job.project, if_neg (Ne.symm hn)]
      simpa using hInv.projCount n p hget
  · intro j' hj'
    rcases List.mem_cons.mp hj' with hhd | htl
    · subst hhd
      simp [Job.project, hget']
    · by_cases hn : j'.project = projectName
      · rw [hn, hget']
        simp
      · rw [incrWorkers_get_ne _ _ _ (Ne.symm hn)]
        exact hInv.pendMem j' htl
  · show r.current_worker_processes + 1 = _
    rw [hInv.globalCount]
    push_cast
    simp [add_comm]
  · show (Job.eval projectName :: pend).length ≤
      (incrWorkers r projectName).worker_processes
    have hlen : r.current_worker_processes = (pend.length : Int) :=
      hInv.globalCount
    rw [hlen] at hlt
    have : pend.length < r.worker_processes := by exact_mod_cast hlt
    simpa using this
  · intro n p hget hstatus
    by_cases hn : n = projectName
    · subst hn
      rw [hget'] at hget
      cases hget
      exact hInv.failedMsg n q hg hstatus
    · rw [incrWorkers_get_ne _ _ _ (Ne.symm hn)] at hget
      exact hInv.failedMsg n p hget hstatus

/-- Shared counting facts for removing one pending job owned by
`project`. -/
theorem countJobs_remove (l₁ l₂ : List Job) (j : Job) (n : String) :
    countJobs (l₁ ++ j :: l₂) n =
      countJobs (l₁ ++ l₂) n + (if j.project = n then 1 else 0) := by
  rw [countJobs_append, countJobs_cons, countJobs_append]
  ring

theorem inv_completeTrainOk (r : DataRouter) (l₁ l₂ : List Job)
    (project : String)
    (hInv : Inv ⟨r, l₁ ++ Job.train project :: l₂⟩) :
    Inv ⟨training_callback r project, l₁ ++ l₂⟩ := by
  have hjmem : Job.train project ∈ l₁ ++ Job.train project :: l₂ := by
    simp
  have hsome := hInv.pendMem _ hjmem
  simp only [Job.project] at hsome
  obtain ⟨q, hg⟩ := Option.isSome_iff_exists.mp hsome
  have hget' := training_callback_get_self r project q hg
  have hqc : q.current_worker_processes =
      (countJobs (l₁ ++ Job.train project :: l₂) project : Int) :=
    hInv.projCount project q hg
  have hremove := countJobs_remove l₁ l₂ (Job.train project) project
  simp only [Job.project, if_pos rfl] at hremove
  refine ⟨?_, ?_, ?_, ?_, ?_, ?_⟩
  · show (training_callback r project).project_store.keys.Nodup
    rw [training_callback_keys]
    exact hInv.nodupKeys
  · intro n p hget
    by_cases hn : n = project
    · subst hn
      rw [hget'] at hget
      cases hget
      have hremove' := countJobs_remove l₁ l₂ (Job.train n) n
      simp only [Job.project, if_pos rfl] at hremove'
      split <;>
      · show q.current_worker_processes - 1 = _
        rw [hqc, hremove']
        push_cast
        ring
    · rw [training_callback_get_ne _ _ _ fun he => hn he.symm] at hget
      have hremove' := countJobs_remove l₁ l₂ (Job.train project) n
      rw [show (if (Job.train project).project = n then 1 else 0) = 0 from
        if_neg fun he => hn he.symm] at hremove'
      rw [hInv.projCount n p hget, hremove']
      push_cast
      ring
  · intro j' hj'
    have hj'' : j' ∈ l₁ ++ Job.train project :: l₂ := by
      rcases List.mem_append.mp hj' with h | h
      · exact List.mem_append.mpr (Or.inl h)
      · exact List.mem_append.mpr (Or.inr (List.mem_cons_of_mem _ h))
    by_cases hn : j'.project = project
    · rw [hn, hget']
      simp
    · rw [training_callback_get_ne _ _ _ fun he => hn he.symm]
      exact hInv.pendMem j' hj''
  · rw [training_callback_current, hInv.globalCount]
    simp only [List.length_append, List.length_cons]
    push_cast
    ring
  · rw [training_callback_max]
    have := hInv.cap
    simp only [List.length_append, List.length_cons] at this ⊢
    omega
  · intro n p hget hstatus
    by_cases hn : n = project
    · subst hn
      rw [hget'] at hget
      cases hget
      by_cases hc : q.status = Status.training ∧
          q.current_worker_processes - 1 = 0
      · rw [if_pos hc] at hstatus
        simp at hstatus
      · rw [if_neg hc] at hstatus ⊢
        exact hInv.failedMsg n q hg hstatus
    · rw [training_callback_get_ne _ _ _ fun he => hn he.symm] at hget
      exact hInv.failedMsg n p hget hstatus

theorem inv_completeTrainErr (r : DataRouter) (l₁ l₂ : List Job)
    (project : String) (briefTraceback : String)
    (hInv : Inv ⟨r, l₁ ++ Job.train project :: l₂⟩) :
    Inv ⟨training_errback r project briefTraceback, l₁ ++ l₂⟩ := by
  have hjmem : Job.train project ∈ l₁ ++ Job.train project :: l₂ := by
    simp
  have hsome := hInv.pendMem _ hjmem
  simp only [Job.project] at hsome
  obtain ⟨q, hg⟩ := Option.isSome_iff_exists.mp hsome
  have hget' := training_errback_get_self r project briefTraceback q hg
  have hqc : q.current_worker_processes =
      (countJobs (l₁ ++ Job.train project :: l₂) project : Int) :=
    hInv.projCount project q hg
  refine ⟨?_, ?_, ?_, ?_, ?_, ?_⟩
  · show (training_errback r project briefTraceback).project_store.keys.Nodup
    rw [training_errback_keys]
    exact hInv.nodupKeys
  · intro n p hget
    by_cases hn : n = project
    · subst hn
      rw [hget'] at hget
      cases hget
      have hremove' := countJobs_remove l₁ l₂ (Job.train n) n
      simp only [Job.project, if_pos rfl] at hremove'
      show q.current_worker_processes - 1 = _
      rw [hqc, hremove']
      push_cast
      ring
    · rw [training_errback_get_ne _ _ _ _ fun he => hn he.symm] at hget
      have hremove' := countJobs_remove l₁ l₂ (Job.train project) n
      rw [show (if (Job.train project).project = n then 1 else 0) = 0 from
        if_neg fun he => hn he.symm] at hremove'
      rw [hInv.projCount n p hget, hremove']
      push_cast
      ring
  · intro j' hj'
    have hj'' : j' ∈ l₁ ++ Job.train project :: l₂ := by
      rcases List.mem_append.mp hj' with h | h
      · exact List.mem_append.mpr (Or.inl h)
      · exact List.mem_append.mpr (Or.inr (List.mem_cons_of_mem _ h))
    by_cases hn : j'.project = project
    · rw [hn, hget']
      simp
    · rw [training_errback_get_ne _ _ _ _ fun he => hn he.symm]
      exact hInv.pendMem j' hj''
  · rw [training_errback_current, hInv.globalCount]
    simp only [List.length_append, List.length_cons]
    push_cast
    ring
  · rw [training_errback_max]
    have := hInv.cap
    simp only [List.length_append, List.length_cons] at this ⊢
    omega
  · intro n p hget hstatus
    by_cases hn : n = project
    · subst hn
      rw [hget'] at hget
      cases hget
      simp
    · rw [training_errback_get_ne _ _ _ _ fun he => hn he.symm] at hget
      exact hInv.failedMsg n p hget hstatus

theorem inv_completeEval (r : DataRouter) (l₁ l₂ : List Job)
    (project : String)
    (hInv : Inv ⟨r, l₁ ++ Job.eval project :: l₂⟩) :
    Inv ⟨decrWorkers r project, l₁ ++ l₂⟩ := by
  have hjmem : Job.eval project ∈ l₁ ++ Job.eval project :: l₂ := by
    simp
  have hsome := hInv.pendMem _ hjmem
  simp only [Job.project] at hsome
  obtain ⟨q, hg⟩ := Option.isSome_iff_exists.mp hsome
  have hget' := decrWorkers_get_self r project q hg
  have hqc : q.current_worker_processes =
      (countJobs (l₁ ++ Job.eval project :: l₂) project : Int) :=
    hInv.projCount project q hg
  refine ⟨?_, ?_, ?_, ?_, ?_, ?_⟩
  · show (decrWorkers r project).project_store.keys.Nodup
    rw [decrWorkers_keys]
    exact hInv.nodupKeys
  · intro n p hget
    by_cases hn : n = project
    · subst hn
      rw [hget'] at hget
      cases hget
      have hremove' := countJobs_remove l₁ l₂ (Job.eval n) n
      simp only [Job.project, if_pos rfl] at hremove'
      show q.current_worker_processes - 1 = _
      rw [hqc, hremove']
      push_cast
      ring
    · rw [decrWorkers_get_ne _ _ _ fun he => hn he.symm] at hget
      have hremove' := countJobs_remove l₁ l₂ (Job.eval project) n
      rw [show (if (Job.eval project).project = n then 1 else 0) = 0 from
        if_neg fun he => hn he.symm] at hremove'
      rw [hInv.projCount n p hget, hremove']
      push_cast
      ring
  · intro j' hj'
    have hj'' : j' ∈ l₁ ++ Job.eval project :: l₂ := by
      rcases List.mem_append.mp hj' with h | h
      · exact List.mem_append.mpr (Or.inl h)
      · exact List.mem_append.mpr (Or.inr (List.mem_cons_of_mem _ h))
    by_cases hn : j'.project = project
    · rw [hn, hget']
      simp
    · rw [decrWorkers_get_ne _ _ _ fun he => hn he.symm]
      exact hInv.pendMem j' hj''
  · show r.current_worker_processes - 1 = _
    rw [hInv.globalCount]
    simp only [List.length_append, List.length_cons]
    push_cast
    ring
  · show (l₁ ++ l₂).length ≤ r.worker_processes
    have := hInv.cap
    simp only [List.length_append, List.length_cons] at this ⊢
    omega
  · intro n p hget hstatus
    by_cases hn : n = project
    · subst hn
      rw [hget'] at hget
      cases hget
      exact hInv.failedMsg n q hg hstatus
    · rw [decrWorkers_get_ne _ _ _ fun he => hn he.symm] at hget
      exact hInv.failedMsg n p hget hstatus

/-- The invariant is preserved by every step. -/
theorem inv_step (c c' : Config) (hs : Step c c') (hInv : Inv c) : Inv c' := by
  cases hs with
  | submitTrainOk r pend project j r' h =>
    exact inv_submitTrainOk r pend project j r' h hInv
  | submitTrainErr r pend project e r' h =>
    rw [start_train_process_err_inv r project e r' h]
    exact hInv
  | submitEvalOk r pend project model dynamic_load j r' h =>
    exact inv_submitEvalOk r pend project model dynamic_load j r' h hInv
  | submitEvalErr r pend project model dynamic_load e r' h =>
    rw [evaluate_err_inv r project model dynamic_load e r' h]
    exact hInv
  | completeTrainOk r l₁ l₂ project =>
    exact inv_completeTrainOk r l₁ l₂ project hInv
  | completeTrainErr r l₁ l₂ project briefTraceback =>
    exact inv_completeTrainErr r l₁ l₂ project briefTraceback hInv
  | completeEvalOk r l₁ l₂ project =>
    exact inv_completeEval r l₁ l₂ project hInv
  | completeEvalErr r l₁ l₂ project =>
    exact inv_completeEval r l₁ l₂ project hInv

/-- Every reachable configuration satisfies the invariant. -/
theorem reachable_inv (c : Config) (h : Reachable c) : Inv c := by
  induction h with
  | init m projects hnd => exact inv_init m projects hnd
  | step c c' hc hs ih => exact inv_step c c' hs ih

/-- `str(failure)` of a twisted `Failure` is never the empty string. -/
theorem failureStr_ne_empty (briefTraceback : String) :
    failureStr briefTraceback ≠ "" := by
  unfold failureStr
  intro h
  have h2 := congrArg String.data h
  simp [String.data_append] at h2

/-! ### Claims -/

/-- C1: a `start_train_process` call with a non-empty project name made
while `current_worker_processes >= max_worker_processes` raises
`MaxWorkerProcessError` and performs no state mutation: the returned
router state is the input state itself, so neither the global nor any
per-project counter is incremented, no `Project` record is created, and
no project's status changes. -/
theorem start_train_at_capacity_rejects_without_mutation
    (r : DataRouter) (project : String) (hp : project ≠ "")
    (hcap : (r.worker_processes : Int) ≤ r.current_worker_processes) :
    start_train_process r project =
      (Except.error RouterError.maxWorkerProcess, r) := by
  unfold start_train_process
  rw [if_neg hp, if_pos hcap]

/-- Witness for C1: a saturated one-worker router rejects a training
request for `"proj"` and is returned unchanged. -/
theorem start_train_at_capacity_rejects_without_mutation_witness :
    ("proj" ≠ "" ∧ ((1 : Nat) : Int) ≤ (1 : Int)) ∧
    start_train_process ⟨1, 1, []⟩ "proj" =
      (Except.error RouterError.maxWorkerProcess, ⟨1, 1, []⟩) :=
  ⟨⟨by decide, by decide⟩,
    start_train_at_capacity_rejects_without_mutation ⟨1, 1, []⟩ "proj"
      (by decide) (by decide)⟩

/-- C2: in every configuration reachable by any interleaving of training
and evaluation submissions and completion deliveries (each submission's
increment paired with exactly one completion decrement, also on failure),
the global counter satisfies
`0 ≤ current_worker_processes ≤ max_worker_processes` and equals the sum
of the per-project counters. -/
theorem worker_counter_bounds_and_sum
    (c : Config) (h : Reachable c) :
    0 ≤ c.router.current_worker_processes ∧
    c.router.current_worker_processes ≤ (c.router.worker_processes : Int) ∧
    c.router.project_store.sumWorkers = c.router.current_worker_processes := by
  have hInv := reachable_inv c h
  refine ⟨?_, ?_, ?_⟩
  · rw [hInv.globalCount]
    exact_mod_cast Nat.zero_le _
  · rw [hInv.globalCount]
    exact_mod_cast hInv.cap
  · rw [sumWorkers_eq_length _ _ hInv.nodupKeys hInv.projCount hInv.pendMem,
      hInv.globalCount]

/-- Witness for C2: the counter bounds at the freshly initialised
single-worker router. -/
theorem worker_counter_bounds_and_sum_witness :
    0 ≤ (DataRouter.init 1 ["default"]).current_worker_processes ∧
    (DataRouter.init 1 ["default"]).current_worker_processes ≤
      ((DataRouter.init 1 ["default"]).worker_processes : Int) ∧
    (DataRouter.init 1 ["default"]).project_store.sumWorkers =
      (DataRouter.init 1 ["default"]).current_worker_processes :=
  worker_counter_bounds_and_sum ⟨DataRouter.init 1 ["default"], []⟩
    (Reachable.init 1 ["default"] (by simp))

/-- The state used to refute C3 as stated: on a two-worker router, two
training jobs for `"A"` are submitted, the first fails (status FAILED,
one job still in flight), then the second succeeds as the last in-flight
job. -/
def cexRouterC3 : DataRouter :=
  training_callback
    (training_errback
      ((start_train_process
        ((start_train_process (DataRouter.init 2 []) "A").2) "A").2)
      "A" "boom")
    "A"

/-- C3 counterexample: after the trace of `cexRouterC3`, the success
callback ran as the last in-flight job (the per-project count reached 0)
yet the project's status is FAILED, not READY — so the unconditional
"status becomes READY" of the claim is false; the READY transition also
requires the status to still be TRAINING. -/
theorem training_success_last_job_not_ready_cex :
    cexRouterC3.project_store.get "A" =
      some { status := Status.failed
             current_worker_processes := 0
             error_message := some "[Failure instance: boom]" } ∧
    Status.failed ≠ Status.ready := by
  exact ⟨by decide, by decide⟩

/-- C3 amended: when a training job's success callback runs, the
project's in-flight count is decremented; if after the decrement the
count is 0 and the status is still TRAINING, the status becomes READY;
if the count is still non-zero the status is unchanged (in particular it
remains TRAINING when it was TRAINING). -/
theorem training_callback_ready_iff_still_training
    (r : DataRouter) (project : String) (q : Project)
    (h : r.project_store.get project = some q) :
    (q.status = Status.training ∧ q.current_worker_processes - 1 = 0 →
      (training_callback r project).project_store.get project =
        some { q with
                status := Status.ready
                current_worker_processes := q.current_worker_processes - 1 }) ∧
    (q.current_worker_processes - 1 ≠ 0 →
      (training_callback r project).project_store.get project =
        some { q with
                current_worker_processes := q.current_worker_processes - 1 }) := by
  have hget' := training_callback_get_self r project q h
  constructor
  · intro hc
    rw [hget', if_pos hc]
  · intro hc
    rw [hget', if_neg (fun hcontra => hc hcontra.2)]

/-- Witness for C3 (amended): a TRAINING project with one in-flight job
becomes READY when that job's success callback runs. -/
theorem training_callback_ready_iff_still_training_witness :
    (training_callback
        (⟨1, 1, [("A", ⟨Status.training, 1, none⟩)]⟩ : DataRouter)
        "A").project_store.get "A" =
      some ⟨Status.ready, 0, none⟩ := by
  have h := training_callback_ready_iff_still_training
    ⟨1, 1, [("A", ⟨Status.training, 1, none⟩)]⟩ "A"
    ⟨Status.training, 1, none⟩ (by decide)
  exact h.1 ⟨by decide, by decide⟩

/-- C4: whenever a training job's failure callback runs for a registered
project, the project's status becomes FAILED and its error message is
set to the non-empty string `str(failure)`, unconditionally (for every
remaining in-flight count), and both the global and the per-project
counters are decremented by one. -/
theorem training_errback_sets_failed_and_decrements
    (r : DataRouter) (project briefTraceback : String) (q : Project)
    (h : r.project_store.get project = some q) :
    (training_errback r project briefTraceback).project_store.get project =
      some { q with
              current_worker_processes := q.current_worker_processes - 1
              status := Status.failed
              error_message := some (failureStr briefTraceback) } ∧
    failureStr briefTraceback ≠ "" ∧
    (training_errback r project briefTraceback).current_worker_processes =
      r.current_worker_processes - 1 :=
  ⟨training_errback_get_self r project briefTraceback q h,
    failureStr_ne_empty briefTraceback, rfl⟩

/-- Witness for C4: a failure callback on a project with two in-flight
jobs marks it FAILED with a non-empty message and decrements both
counters. -/
theorem training_errback_sets_failed_and_decrements_witness :
    (training_errback
        (⟨2, 2, [("A", ⟨Status.training, 2, none⟩)]⟩ : DataRouter)
        "A" "boom").project_store.get "A" =
      some { status := Status.failed
             current_worker_processes := 1
             error_message := some (failureStr "boom") } := by
  have h := training_errback_sets_failed_and_decrements
    ⟨2, 2, [("A", ⟨Status.training, 2, none⟩)]⟩ "A" "boom"
    ⟨Status.training, 2, none⟩ (by decide)
  exact h.1

/-- C5: the done-callback installed by `deferred_from_future` delivers
exactly the underlying job's outcome — the errback with the job's error
when the future carries an exception, the callback with the job's result
otherwise — and both settings of `DEFERRED_RUN_IN_REACTOR_THREAD`
(cross-thread scheduling versus inline invocation) produce the same
observable invocation for every completed future. -/
theorem deferred_from_future_outcome_and_flag_equiv
    {ε α : Type} (future : FutureOutcome ε α) :
    (∀ runInReactorThread : Bool,
      (deferred_from_future runInReactorThread future).observed =
        [future.asInvocation]) ∧
    (deferred_from_future true future).observed =
      (deferred_from_future false future).observed := by
  constructor
  · intro flag
    cases future <;> cases flag <;> rfl
  · cases future <;> rfl

/-- The state used to refute C6 as stated: a single-worker router trains
`"P"`, the job fails (status FAILED, message recorded), and `"P"` is then
resubmitted for training — which sets the status back to TRAINING but
leaves the stale error message in place. -/
def cexRouterC6 : DataRouter :=
  (start_train_process
    (training_errback
      ((start_train_process (DataRouter.init 1 []) "P").2) "P" "boom")
    "P").2

/-- C6 counterexample: after the trace of `cexRouterC6` — a sequence of
`start_train_process` calls and training completion callbacks — project
`"P"` has `error_message` set while its status is TRAINING, refuting the
"only if" direction of the claimed equivalence. -/
theorem error_message_set_without_failed_cex :
    cexRouterC6.project_store.get "P" =
      some { status := Status.training
             current_worker_processes := 1
             error_message := some "[Failure instance: boom]" } ∧
    Status.training ≠ Status.failed := by
  exact ⟨by decide, by decide⟩

/-- C6 amended: in every reachable router state, a project whose status
is FAILED has its error message set; the converse direction of the
original claim fails, because `start_train_process` resets a failed
project's status to TRAINING without clearing the stale error message. -/
theorem failed_status_implies_error_message
    (c : Config) (h : Reachable c) (n : String) (p : Project)
    (hget : c.router.project_store.get n = some p)
    (hst : p.status = Status.failed) : p.error_message ≠ none :=
  (reachable_inv c h).failedMsg n p hget hst

/-- Witness for C6 (amended): at the reachable state in which the only
training job for `"P"` has failed, the FAILED project carries the failure
message. -/
theorem failed_status_implies_error_message_witness :
    (Project.mk Status.failed 0
      (some (failureStr "boom"))).error_message ≠ none := by
  have h1 : Reachable
      ⟨(start_train_process (DataRouter.init 1 ["P"]) "P").2, [Job.train "P"]⟩ :=
    Reachable.step _ _ (Reachable.init 1 ["P"] (by simp))
      (Step.submitTrainOk _ [] "P" (Job.train "P") _ rfl)
  have h2 : Reachable
      ⟨training_errback
          (start_train_process (DataRouter.init 1 ["P"]) "P").2 "P" "boom",
        []⟩ :=
    Reachable.step _ _ h1
      (Step.completeTrainErr
        (start_train_process (DataRouter.init 1 ["P"]) "P").2 [] [] "P" "boom")
  exact failed_status_implies_error_message _ h2 "P"
    (Project.mk Status.failed 0 (some (failureStr "boom")))
    (by decide) (by decide)

/-- C7: completing an evaluation job — through the success callback or
the failure callback, whose bodies decrement identically — leaves the
owning project's status and error message unchanged and every other
project untouched; the only fields that change are the global counter and
that project's in-flight counter, each decremented by one. -/
theorem evaluation_completion_only_decrements
    (r : DataRouter) (project : String) (q : Project)
    (h : r.project_store.get project = some q) :
    evaluation_callback r project =
      { r with
          current_worker_processes := r.current_worker_processes - 1
          project_store :=
            r.project_store.set project
              { q with
                  current_worker_processes :=
                    q.current_worker_processes - 1 } } ∧
    evaluation_errback r project =
      { r with
          current_worker_processes := r.current_worker_processes - 1
          project_store :=
            r.project_store.set project
              { q with
                  current_worker_processes :=
                    q.current_worker_processes - 1 } } := by
  unfold evaluation_callback evaluation_errback decrWorkers Store.modify
  rw [h]
  exact ⟨rfl, rfl⟩

/-- Witness for C7: evaluation completion on a READY project only
decrements the two counters. -/
theorem evaluation_completion_only_decrements_witness :
    evaluation_callback
        (⟨1, 1, [("E", ⟨Status.ready, 1, none⟩)]⟩ : DataRouter) "E" =
      ⟨1, 0, [("E", ⟨Status.ready, 0, none⟩)]⟩ := by
  have h := evaluation_completion_only_decrements
    ⟨1, 1, [("E", ⟨Status.ready, 1, none⟩)]⟩ "E"
    ⟨Status.ready, 1, none⟩ (by decide)
  rw [h.1]
  decide

/-- C8: if a project is FAILED when a training job's success callback
runs, it stays FAILED even when that job was the last in flight; the
callback transitions to READY only from a state in which the project
reads READY already or is still TRAINING. -/
theorem training_callback_preserves_failed
    (r : DataRouter) (project : String) (q : Project)
    (h : r.project_store.get project = some q) :
    (q.status = Status.failed →
      ((training_callback r project).project_store.get project).map
        Project.status = some Status.failed) ∧
    (((training_callback r project).project_store.get project).map
        Project.status = some Status.ready →
      q.status = Status.training ∨ q.status = Status.ready) := by
  have hget' := training_callback_get_self r project q h
  constructor
  · intro hf
    rw [hget', if_neg (by simp [hf])]
    simp [hf]
  · intro hr
    by_cases hc : q.status = Status.training ∧
        q.current_worker_processes - 1 = 0
    · exact Or.inl hc.1
    · rw [hget', if_neg hc] at hr
      simp at hr
      exact Or.inr hr

/-- Witness for C8: a FAILED project whose last in-flight training job
succeeds stays FAILED. -/
theorem training_callback_preserves_failed_witness :
    ((training_callback
        (⟨2, 1, [("A", ⟨Status.failed, 1, some "m"⟩)]⟩ : DataRouter)
        "A").project_store.get "A").map Project.status =
      some Status.failed := by
  have h := training_callback_preserves_failed
    ⟨2, 1, [("A", ⟨Status.failed, 1, some "m"⟩)]⟩ "A"
    ⟨Status.failed, 1, some "m"⟩ (by decide)
  exact h.1 (by decide)

/-- C9: a call to `evaluate` while
`current_worker_processes >= max_worker_processes` raises
`MaxWorkerProcessError` before the project argument is defaulted or
validated and before the model is resolved — for every project argument
(unknown, unspecified or model-less alike) and every dynamic-load
behaviour the result is the capacity error, never `InvalidProjectError`
or `UnsupportedModelError`, and the router state is returned unchanged. -/
theorem evaluate_at_capacity_rejects_before_validation
    (r : DataRouter) (project model : Option String)
    (dynamic_load : String → String)
    (hcap : (r.worker_processes : Int) ≤ r.current_worker_processes) :
    evaluate r project model dynamic_load =
      (Except.error RouterError.maxWorkerProcess, r) := by
  unfold evaluate
  rw [if_pos hcap]

/-- Witness for C9: a saturated router with an empty project store
rejects an evaluation of an unknown project whose model would resolve to
the fallback sentinel — with the capacity error, not a validation
error. -/
theorem evaluate_at_capacity_rejects_before_validation_witness :
    evaluate ⟨1, 1, []⟩ (some "nope") none (fun _ => FALLBACK_MODEL_NAME) =
      (Except.error RouterError.maxWorkerProcess, ⟨1, 1, []⟩) :=
  evaluate_at_capacity_rejects_before_validation
    ⟨1, 1, []⟩ (some "nope") none (fun _ => FALLBACK_MODEL_NAME) (by decide)

/-- C10 counterexample: the mode name `"WIT"` lies outside the
enumeration `{none, wit, luis, dialogflow}`, yet emulator selection
succeeds on it (matching is on `mode.lower()`), refuting the claim that
every mode name outside the enumeration fails. -/
theorem create_emulator_outside_enumeration_cex :
    create_emulator (some "WIT") = Except.ok Emulator.wit ∧
    ("WIT" ≠ "wit" ∧ "WIT" ≠ "luis" ∧ "WIT" ≠ "dialogflow") :=
  ⟨rfl, by decide⟩

/-- C10 amended: emulator selection succeeds for the absent mode (`None`)
and for every mode string whose lowercase form is `wit`, `luis` or
`dialogflow`, and fails with the invalid-argument `ValueError` for every
mode string whose lowercase form lies outside that enumeration — i.e. the
enumeration is matched case-insensitively. -/
theorem create_emulator_mode_cases (m : String) :
    create_emulator none = Except.ok Emulator.noEmulator ∧
    ((pyLower m = "wit" ∨ pyLower m = "luis" ∨ pyLower m = "dialogflow") →
      ∃ e, create_emulator (some m) = Except.ok e) ∧
    (¬(pyLower m = "wit" ∨ pyLower m = "luis" ∨ pyLower m = "dialogflow") →
      create_emulator (some m) =
        Except.error (RouterError.valueError ("unknown mode : " ++ m))) := by
  refine ⟨rfl, ?_, ?_⟩
  · intro h
    unfold create_emulator
    dsimp only
    by_cases h1 : pyLower m = "wit"
    · rw [if_pos h1]
      exact ⟨_, rfl⟩
    · rw [if_neg h1]
      by_cases h2 : pyLower m = "luis"
      · rw [if_pos h2]
        exact ⟨_, rfl⟩
      · rw [if_neg h2]
        rcases h with h | h | h
        · exact absurd h h1
        · exact absurd h h2
        · rw [if_pos h]
          exact ⟨_, rfl⟩
  · intro h
    push_neg at h
    unfold create_emulator
    dsimp only
    rw [if_neg h.1, if_neg h.2.1, if_neg h.2.2]

/-- Witness for C10 (amended): `"LUIS"` lowercases into the enumeration
and selection succeeds on it. -/
theorem create_emulator_mode_cases_witness :
    ∃ e, create_emulator (some "LUIS") = Except.ok e :=
  (create_emulator_mode_cases "LUIS").2.1 (Or.inr (Or.inl (by decide)))

end DataRouterModel
